import Mathlib

/-!
Shallow embedding of the beaker filesystem manager (drive registry,
mount reconciler, available-name search) and proofs about its behaviour.

The JavaScript source keeps a module-global array `drives` (the in-memory
registry) plus a document `/drives.json` persisted inside the root drive.
`JSON.stringify` is deterministic, so the persisted document is modelled at
the parsed level: a `List DriveConfig`.  Two documents are byte-identical
iff their parsed drive lists are equal.

External collaborators (the hyper drive store, the modal prompt) are awaited
promises; their outcomes are supplied through an `Env` record.  Each public
operation returns the new state together with the list of observable effects
it issued, in order.
-/

namespace Beaker

/-- JS `forkOf` objects carry `key` and `label` fields, each of which may be
`undefined` (the code itself builds `{key: undefined, label: undefined}`). -/
structure ForkOf where
  key : Option String
  label : Option String
deriving DecidableEq, Repr

/-- one registry entry: `{key, forkOf?}` as declared in the typedef. -/
structure DriveConfig where
  key : String
  forkOf : Option ForkOf := none
deriving DecidableEq, Repr

/-- the drive manifest as far as `configDrive` inspects it: only its
`forkOf` field, which is either absent / not a string (`none`) or a
string (`some s`; JS also requires the string to be truthy, i.e. nonempty,
which is checked separately). -/
structure Manifest where
  forkOf : Option String := none
deriving DecidableEq, Repr

/-- the `forkOf` option of `configDrive(url, {forkOf})`:
`undef` = not supplied (`typeof forkOf === 'undefined'`),
`given f` = a truthy object,
`cleared` = supplied but not a truthy object (e.g. `null`, `false`). -/
inductive ForkArg
  | undef
  | cleared
  | given (f : ForkOf)
deriving DecidableEq, Repr

/-- outcomes of the awaited external collaborators:
`fromURLToKey` resolves a URL to a key (`none` = the promise rejects),
`driveWritable` is the loaded drive's `writable` flag,
`readManifest` is `drive.pda.readManifest()` (`none` = the read rejects),
`promptResult` is the fork-label modal (`none` = declined or errored,
`some v` = submitted with value `v`, possibly empty). -/
structure Env where
  fromURLToKey : String → Option String
  driveWritable : String → Bool
  readManifest : String → Option Manifest
  promptResult : Option String

/-- JS errors that can escape `configDrive` / `removeDrive`. -/
inductive JSErr
  | typeError
  | resolutionError
deriving DecidableEq, Repr

/-- result marker: `ok` covers both the normal return and the silent
prompt-declined early return (JS callers cannot tell them apart). -/
inductive Outcome
  | ok
  | error (e : JSErr)
deriving DecidableEq, Repr

/-- observable effects of a registry operation, in issue order. -/
inductive Effect
  | lockAcquire
  | lockRelease
  | configureNetwork (announce lookup : Bool)
  | promptShown
  | writeDrivesJson (drives : List DriveConfig)
deriving DecidableEq, Repr

/-- shared registry state: the in-memory `drives` array and the parsed
contents of the persisted `/drives.json` document. -/
structure FSState where
  drives : List DriveConfig
  doc : List DriveConfig
deriving DecidableEq, Repr

/-- result of a registry mutation: final state, outcome, effect trace. -/
structure CDResult where
  state : FSState
  outcome : Outcome
  effects : List Effect
deriving DecidableEq, Repr

/-- JS truthiness of an optional string: `undefined` and `""` are falsy. -/
def truthyStr : Option String → Bool
  | none => false
  | some s => s ≠ ""

/-- `rootDrive.url.slice('hyper://'.length)` (line 121). -/
def stripScheme (url : String) : String := url.drop 8

/-- `listDrives({includeSystem})` (lines 118-124): a shallow copy of the
in-memory list, with a synthetic root-drive entry prepended when
`includeSystem` is true. -/
def listDrives (includeSystem : Bool) (rootUrl : String)
    (drives : List DriveConfig) : List DriveConfig :=
  if includeSystem then { key := stripScheme rootUrl } :: drives else drives

/-- `getDriveConfig(key)` (lines 137-139): lookup through `listDrives()`
(whose `includeSystem` option defaults to false). -/
def getDriveConfig (rootUrl : String) (key : String)
    (drives : List DriveConfig) : Option DriveConfig :=
  (listDrives false rootUrl drives).find? (fun d => d.key == key)

/-- mutation of the first entry whose `key` matches, mirroring how
`drives.find(...)` returns the first match and the code then assigns to
that object's `forkOf` field in place (lines 190-197). -/
def updateFirst (l : List DriveConfig) (key : String)
    (g : DriveConfig → DriveConfig) : List DriveConfig :=
  match l with
  | [] => []
  | d :: rest => if d.key == key then g d :: rest else d :: updateFirst rest key g

/-- the `forkOf` field attached to a fresh entry (line 157-159): the
caller's object when it was a truthy object, otherwise absent. -/
def forkArgForkOf : ForkArg → Option ForkOf
  | .given f => some f
  | _ => none

/-- `configDrive(url, {forkOf})` (lines 147-203), translated branch by
branch.  Notable faithfulness points:
* `readManifest().catch(_ => {})` resolves to `undefined` when the read
  fails (the arrow body `{}` is an empty block, not an object literal), so
  line 173 `manifest.forkOf` then throws a TypeError: modelled by the
  `.error .typeError` branch.
* the prompt-declined path (`if (!promptRes || !promptRes.value) return`,
  line 179) is a plain return: outcome `ok`, state unchanged, no write.
* the parent-presence insertion (lines 183-186) happens only inside the
  manifest-declared fork branch.
* the `finally` releases the lock on every path, errors included. -/
def configDrive (env : Env) (url : String) (forkOf : ForkArg)
    (s : FSState) : CDResult :=
  match env.fromURLToKey url with
  | none => ⟨s, .error .resolutionError, [.lockAcquire, .lockRelease]⟩
  | some key =>
    match s.drives.find? (fun d => d.key == key) with
    | none =>
      -- new-entry path (lines 152-189)
      let writable := env.driveWritable url
      let manifest := env.readManifest url
      let cfg0 : DriveConfig := { key := key, forkOf := forkArgForkOf forkOf }
      let netEffs : List Effect :=
        if writable then [] else [.configureNetwork true true]
      match manifest with
      | none =>
        -- `manifest` is `undefined`; `manifest.forkOf` throws (line 173)
        ⟨s, .error .typeError, .lockAcquire :: netEffs ++ [.lockRelease]⟩
      | some m =>
        match m.forkOf with
        | some parentUrl =>
          if parentUrl = "" then
            -- falsy string: the fork block is skipped
            let drives' := s.drives ++ [cfg0]
            ⟨⟨drives', drives'⟩, .ok,
              .lockAcquire :: netEffs ++ [.writeDrivesJson drives', .lockRelease]⟩
          else
            match env.fromURLToKey parentUrl with
            | none =>
              ⟨s, .error .resolutionError, .lockAcquire :: netEffs ++ [.lockRelease]⟩
            | some parentKey =>
              -- line 174-175: ensure a forkOf object, overwrite its key
              let f1 : ForkOf :=
                { cfg0.forkOf.getD ⟨none, none⟩ with key := some parentKey }
              if truthyStr f1.label then
                -- label already present: no prompt
                let cfg1 : DriveConfig := { cfg0 with forkOf := some f1 }
                let withParent :=
                  if (s.drives.find? (fun d => d.key == parentKey)).isSome
                  then s.drives else s.drives ++ [{ key := parentKey }]
                let drives' := withParent ++ [cfg1]
                ⟨⟨drives', drives'⟩, .ok,
                  .lockAcquire :: netEffs ++ [.writeDrivesJson drives', .lockRelease]⟩
              else
                match env.promptResult with
                | none =>
                  -- prompt declined/errored: `return` (line 179)
                  ⟨s, .ok, .lockAcquire :: netEffs ++ [.promptShown, .lockRelease]⟩
                | some v =>
                  if v = "" then
                    ⟨s, .ok, .lockAcquire :: netEffs ++ [.promptShown, .lockRelease]⟩
                  else
                    let cfg1 : DriveConfig :=
                      { cfg0 with forkOf := some { f1 with label := some v } }
                    let withParent :=
                      if (s.drives.find? (fun d => d.key == parentKey)).isSome
                      then s.drives else s.drives ++ [{ key := parentKey }]
                    let drives' := withParent ++ [cfg1]
                    ⟨⟨drives', drives'⟩, .ok,
                      .lockAcquire :: netEffs ++
                        [.promptShown, .writeDrivesJson drives', .lockRelease]⟩
        | none =>
          let drives' := s.drives ++ [cfg0]
          ⟨⟨drives', drives'⟩, .ok,
            .lockAcquire :: netEffs ++ [.writeDrivesJson drives', .lockRelease]⟩
    | some _ =>
      -- existing-entry path (lines 190-198); the document is rewritten
      -- even when nothing changed
      let drives' :=
        match forkOf with
        | .undef => s.drives
        | .given f => updateFirst s.drives key (fun d => { d with forkOf := some f })
        | .cleared => updateFirst s.drives key (fun d => { d with forkOf := none })
      ⟨⟨drives', drives'⟩, .ok,
        [.lockAcquire, .writeDrivesJson drives', .lockRelease]⟩

/-- JS `Array.prototype.findIndex`, with the absent case (`-1`) as `none`. -/
def jsFindIndex (p : DriveConfig → Bool) : List DriveConfig → Option Nat
  | [] => none
  | d :: rest => if p d then some 0 else (jsFindIndex p rest).map (· + 1)

/-- `removeDrive(url)` (lines 209-228). -/
def removeDrive (env : Env) (url : String) (s : FSState) : CDResult :=
  match env.fromURLToKey url with
  | none => ⟨s, .error .resolutionError, [.lockAcquire, .lockRelease]⟩
  | some key =>
    match jsFindIndex (fun d => d.key == key) s.drives with
    | none => ⟨s, .ok, [.lockAcquire, .lockRelease]⟩
    | some i =>
      let netEffs : List Effect :=
        if env.driveWritable url then [] else [.configureNetwork false true]
      let drives' := s.drives.eraseIdx i
      ⟨⟨drives', drives'⟩, .ok,
        .lockAcquire :: netEffs ++ [.writeDrivesJson drives', .lockRelease]⟩

/-! mount reconciler (lines 286-339).  The root drive's tree is modelled as
an association list from paths to entries; `stat` (lines 286-289) maps a
failed stat to `null`, i.e. `none` here. -/

/-- what can occupy a path in the root drive, as far as the reconcilers
inspect it: `st.isDirectory()` and `st.mount` (with its key). -/
inductive FsEntry
  | file
  | dir
  | mount (key : String)
deriving DecidableEq, Repr

/-- the root drive's file tree, path to entry. -/
abbrev Fs := List (String × FsEntry)

/-- `stat(path)` (lines 286-289): `none` both for a missing path and for a
stat failure. -/
def fsStat (fs : Fs) (path : String) : Option FsEntry :=
  (fs.find? (fun e => e.1 == path)).map (·.2)

/-- installs an entry at a path, replacing whatever was there. -/
def fsSet (fs : Fs) (path : String) (e : FsEntry) : Fs :=
  (path, e) :: fs.filter (fun x => !(x.1 == path))

/-- removes the entry at a path (`unmount` removes the mount point). -/
def fsRemove (fs : Fs) (path : String) : Fs :=
  fs.filter (fun x => !(x.1 == path))

/-- filesystem-shaping side effects and logged warnings, in issue order. -/
inductive MEffect
  | mkdir (path : String)
  | mount (path key : String)
  | unmount (path : String)
  | warnNotDir (path : String)
  | warnNotMount (path : String)
  | warnFailed (path : String)
deriving DecidableEq, Repr

/-- `ensureDir(path)` (lines 291-303). -/
def ensureDir (fs : Fs) (path : String) : Fs × List MEffect :=
  match fsStat fs path with
  | none => (fsSet fs path .dir, [.mkdir path])
  | some .dir => (fs, [])
  | some _ => (fs, [.warnNotDir path])

/-- `ensureMount(path, url)` (lines 305-326).  A failing `fromURLToKey` is
caught by the surrounding try/catch (line 323): logged, no mutation. -/
def ensureMount (env : Env) (fs : Fs) (path url : String) : Fs × List MEffect :=
  match env.fromURLToKey url with
  | none => (fs, [.warnFailed path])
  | some key =>
    match fsStat fs path with
    | none => (fsSet fs path (.mount key), [.mount path key])
    | some (.mount k) =>
      if k == key then (fs, [])
      else (fsSet fs path (.mount key), [.unmount path, .mount path key])
    | some _ => (fs, [.warnNotMount path])

/-- `ensureUnmount(path)` (lines 328-339). -/
def ensureUnmount (fs : Fs) (path : String) : Fs × List MEffect :=
  match fsStat fs path with
  | some (.mount _) => (fsRemove fs path, [.unmount path])
  | _ => (fs, [])

/-! available-name search (lines 237-245). -/

/-- the candidate probed at loop index `i`: the bare basename at `i = 1`,
`basename + joiningChar + i` afterwards, extension appended when given. -/
def candidateName (basename : String) (ext : Option String)
    (joiningChar : String) (i : Nat) : String :=
  (if i = 1 then basename else basename ++ joiningChar ++ toString i) ++
    (match ext with | some e => "." ++ e | none => "")

/-- Node's `path.join(containingPath, name)`, modelled as plain
slash-joining (the code only ever joins a directory with a basename). -/
def joinPath (containingPath name : String) : String :=
  containingPath ++ "/" ++ name

/-- the loop body of `getAvailableName`, fuelled: the `for` loop runs
`i = 1, 2, ...` while `i < 1e9`, so the fuel counts remaining iterations.
`ex` is existence in the root drive (a truthy `stat`). -/
def availLoop (ex : String → Bool) (containingPath basename : String)
    (ext : Option String) (joiningChar : String) :
    Nat → Nat → Except String String
  | 0, _ => .error ("Unable to find an available name for " ++ basename)
  | fuel + 1, i =>
    let name := candidateName basename ext joiningChar i
    if ex (joinPath containingPath name) then
      availLoop ex containingPath basename ext joiningChar fuel (i + 1)
    else
      .ok name

/-- `getAvailableName(containingPath, basename, ext, joiningChar)`
(lines 237-245): `i` runs from 1 while `i < 1e9`, i.e. 999999999
iterations; falling out of the loop throws the exhaustion error. -/
def getAvailableName (ex : String → Bool) (containingPath basename : String)
    (ext : Option String) (joiningChar : String) :
    Except String String :=
  availLoop ex containingPath basename ext joiningChar 999999999 1

/-! supporting lemmas -/

/-- a freshly installed entry is what `stat` then sees at that path. -/
theorem fsStat_fsSet (fs : Fs) (path : String) (e : FsEntry) :
    fsStat (fsSet fs path e) path = some e := by
  simp [fsStat, fsSet]

/-- after removal, `stat` sees nothing at the path. -/
theorem fsStat_fsRemove (fs : Fs) (path : String) :
    fsStat (fsRemove fs path) path = none := by
  simp only [fsStat, fsRemove, Option.map_eq_none', List.find?_eq_none,
    List.mem_filter]
  intro x hx
  simpa using hx.2

/-! theorems for the claims -/

/-- environment for the manifest-read-failure scenario: the URL resolves to
"child", the drive loads writable, but `readManifest` rejects. -/
def envManifestFail : Env :=
  { fromURLToKey := fun u => if u = "hyper://child" then some "child" else none
    driveWritable := fun _ => true
    readManifest := fun _ => none
    promptResult := none }

/-- C2: on a not-yet-registered URL whose manifest read fails, `configDrive`
does NOT complete as "no manifest": the `catch` handler of the manifest
read resolves to `undefined` (its arrow body is an empty block, not an
object literal), line 173 then
dereferences `manifest.forkOf` and throws a TypeError.  The call errors out:
no entry is appended and the document is not persisted, contradicting the
claimed tolerant behaviour. -/
theorem configDrive_manifest_read_failure_throws :
    configDrive envManifestFail "hyper://child" .undef ⟨[], []⟩ =
      ⟨⟨[], []⟩, .error .typeError, [.lockAcquire, .lockRelease]⟩ := rfl

/-- C5: `ensureMount(path, url)` case analysis, for a url resolving to
`key`: (1) nothing at `path` — exactly one mount to `key` is created;
(2) a mount to a different key — exactly one unmount then one mount;
(3) a mount to the same key — no operation; (4) a non-mount occupant —
only a warning, no filesystem mutation. -/
theorem ensureMount_case_analysis (env : Env) (fs : Fs) (path url key : String)
    (hres : env.fromURLToKey url = some key) :
    (fsStat fs path = none →
      ensureMount env fs path url =
        (fsSet fs path (.mount key), [.mount path key])) ∧
    (∀ k, fsStat fs path = some (.mount k) → k ≠ key →
      ensureMount env fs path url =
        (fsSet fs path (.mount key), [.unmount path, .mount path key])) ∧
    (fsStat fs path = some (.mount key) → ensureMount env fs path url = (fs, [])) ∧
    (∀ e, fsStat fs path = some e → (∀ k, e ≠ .mount k) →
      ensureMount env fs path url = (fs, [.warnNotMount path])) := by
  refine ⟨fun h => ?_, fun k h hk => ?_, fun h => ?_, fun e he hne => ?_⟩
  · simp [ensureMount, hres, h]
  · simp [ensureMount, hres, h, hk]
  · simp [ensureMount, hres, h]
  · cases e with
    | file => simp [ensureMount, hres, he]
    | dir => simp [ensureMount, hres, he]
    | mount k => exact absurd rfl (hne k)

/-- environment used by the reconciler witnesses: "hyper://b" resolves to
key "b", nothing else resolves. -/
def envMountB : Env :=
  { fromURLToKey := fun u => if u = "hyper://b" then some "b" else none
    driveWritable := fun _ => true
    readManifest := fun _ => none
    promptResult := none }

/-- C5 witness: the four cases at concrete states — empty path, mount at
"a", mount already at "b", and a plain file in the way. -/
theorem ensureMount_case_analysis_witness :
    (ensureMount envMountB [] "p" "hyper://b" =
      (fsSet [] "p" (.mount "b"), [.mount "p" "b"])) ∧
    (ensureMount envMountB [("p", .mount "a")] "p" "hyper://b" =
      (fsSet [("p", .mount "a")] "p" (.mount "b"),
        [.unmount "p", .mount "p" "b"])) ∧
    (ensureMount envMountB [("p", .mount "b")] "p" "hyper://b" =
      ([("p", .mount "b")], [])) ∧
    (ensureMount envMountB [("p", .file)] "p" "hyper://b" =
      ([("p", .file)], [.warnNotMount "p"])) := by
  refine ⟨(ensureMount_case_analysis envMountB [] "p" "hyper://b" "b" rfl).1 rfl,
    (ensureMount_case_analysis envMountB [("p", .mount "a")] "p" "hyper://b" "b"
      rfl).2.1 "a" rfl (by decide),
    (ensureMount_case_analysis envMountB [("p", .mount "b")] "p" "hyper://b" "b"
      rfl).2.2.1 rfl,
    (ensureMount_case_analysis envMountB [("p", .file)] "p" "hyper://b" "b"
      rfl).2.2.2 .file rfl (fun k h => by cases h)⟩

/-- C6: idempotence of the three reconcilers: a second identical call
leaves the state of the first call unchanged and issues no second
mkdir / mount / unmount side effect. -/
theorem reconcilers_idempotent (env : Env) (fs : Fs) (path url : String) :
    ((ensureDir (ensureDir fs path).1 path).1 = (ensureDir fs path).1 ∧
      ∀ p, MEffect.mkdir p ∉ (ensureDir (ensureDir fs path).1 path).2) ∧
    ((ensureMount env (ensureMount env fs path url).1 path url).1 =
        (ensureMount env fs path url).1 ∧
      (∀ p k, MEffect.mount p k ∉
        (ensureMount env (ensureMount env fs path url).1 path url).2) ∧
      (∀ p, MEffect.unmount p ∉
        (ensureMount env (ensureMount env fs path url).1 path url).2)) ∧
    ((ensureUnmount (ensureUnmount fs path).1 path).1 = (ensureUnmount fs path).1 ∧
      ∀ p, MEffect.unmount p ∉ (ensureUnmount (ensureUnmount fs path).1 path).2) := by
  refine ⟨?_, ?_, ?_⟩
  · cases h : fsStat fs path with
    | none => simp [ensureDir, h, fsStat_fsSet]
    | some e => cases e <;> simp [ensureDir, h]
  · cases hres : env.fromURLToKey url with
    | none => simp [ensureMount, hres]
    | some key =>
      cases h : fsStat fs path with
      | none => simp [ensureMount, hres, h, fsStat_fsSet]
      | some e =>
        cases e with
        | file => simp [ensureMount, hres, h]
        | dir => simp [ensureMount, hres, h]
        | mount k =>
          by_cases hk : k = key
          · subst hk; simp [ensureMount, hres, h]
          · simp [ensureMount, hres, h, hk, fsStat_fsSet]
  · cases h : fsStat fs path with
    | none => simp [ensureUnmount, h]
    | some e =>
      cases e with
      | file => simp [ensureUnmount, h]
      | dir => simp [ensureUnmount, h]
      | mount k => simp [ensureUnmount, h, fsStat_fsRemove]

/-- the probing loop returns the candidate at the first free index `j`
when all earlier indices are taken and `j` lies within the fuel window. -/
theorem availLoop_found (ex : String → Bool) (cp bn : String) (ext : Option String)
    (jc : String) (j : Nat) (fuel i : Nat) (hij : i ≤ j) (hj : j < i + fuel)
    (hex : ∀ m, m < j → i ≤ m → ex (joinPath cp (candidateName bn ext jc m)) = true)
    (hfree : ex (joinPath cp (candidateName bn ext jc j)) = false) :
    availLoop ex cp bn ext jc fuel i = .ok (candidateName bn ext jc j) := by
  induction fuel generalizing i with
  | zero => omega
  | succ f ih =>
    by_cases hi : i = j
    · subst hi
      simp [availLoop, hfree]
    · have hx := hex i (by omega) (by omega)
      simp only [availLoop, hx, if_true]
      exact ih (i + 1) (by omega) (by omega) (fun m hm him => hex m hm (by omega))

/-- when every index in the fuel window is taken, the loop exhausts. -/
theorem availLoop_exhausted (ex : String → Bool) (cp bn : String)
    (ext : Option String) (jc : String) (fuel i : Nat)
    (hex : ∀ m, m < i + fuel → i ≤ m → ex (joinPath cp (candidateName bn ext jc m)) = true) :
    availLoop ex cp bn ext jc fuel i =
      .error ("Unable to find an available name for " ++ bn) := by
  induction fuel generalizing i with
  | zero => simp [availLoop]
  | succ f ih =>
    have hx := hex i (by omega) le_rfl
    simp only [availLoop, hx, if_true]
    exact ih (i + 1) (fun m hm him => hex m (by omega) (by omega))

/-- C8: `getAvailableName` probes `basename`, `basename<jc>2`,
`basename<jc>3`, ... in order (index 1 is the bare basename, suffix 1 is
never produced — see `candidateName`), returns the first candidate that
does not exist, and throws the exhaustion error when every candidate up to
the 1e9 bound exists. -/
theorem getAvailableName_first_free (ex : String → Bool) (cp bn : String)
    (ext : Option String) (jc : String) :
    (∀ j, 1 ≤ j → j < 1000000000 →
      (∀ m, m < j → 1 ≤ m → ex (joinPath cp (candidateName bn ext jc m)) = true) →
      ex (joinPath cp (candidateName bn ext jc j)) = false →
      getAvailableName ex cp bn ext jc = .ok (candidateName bn ext jc j)) ∧
    ((∀ m, m < 1000000000 → 1 ≤ m → ex (joinPath cp (candidateName bn ext jc m)) = true) →
      getAvailableName ex cp bn ext jc =
        .error ("Unable to find an available name for " ++ bn)) := by
  constructor
  · intro j h1 hb hex hfree
    exact availLoop_found ex cp bn ext jc j 999999999 1 h1 (by omega) hex hfree
  · intro hex
    exact availLoop_exhausted ex cp bn ext jc 999999999 1
      (fun m hm h1m => hex m (by omega) h1m)

/-- C8 witness: with `report`, `report-2`, `report-3` taken the search
returns `report-4`; with nothing taken it returns `report`; with everything
taken it throws the exhaustion error. -/
theorem getAvailableName_first_free_witness :
    (getAvailableName (fun s => ["d/report", "d/report-2", "d/report-3"].contains s)
        "d" "report" none "-" = .ok "report-4") ∧
    (getAvailableName (fun _ => false) "d" "report" none "-" = .ok "report") ∧
    (getAvailableName (fun _ => true) "d" "report" none "-" =
      .error "Unable to find an available name for report") := by
  refine ⟨?_, ?_, ?_⟩
  · exact (getAvailableName_first_free
      (fun s => ["d/report", "d/report-2", "d/report-3"].contains s)
      "d" "report" none "-").1 4 (by omega) (by omega) (by decide) (by decide)
  · exact (getAvailableName_first_free (fun _ => false) "d" "report" none "-").1
      1 le_rfl (by omega) (fun m hm h1m => absurd hm (by omega)) rfl
  · exact (getAvailableName_first_free (fun _ => true) "d" "report" none "-").2
      (fun m hm h1m => rfl)

/-- environment for the caller-forkOf lineage counterexample:
"hyper://child" resolves to key "child"; the manifest is readable and
declares no fork parent. -/
def envCallerFork : Env :=
  { fromURLToKey := fun u => if u = "hyper://child" then some "child" else none
    driveWritable := fun _ => true
    readManifest := fun _ => some { forkOf := none }
    promptResult := none }

/-- C1 counterexample: a successful `configDrive` on a fresh URL with a
caller-supplied `forkOf` (parent key "parent") whose manifest declares no
fork parent leaves an entry with `forkOf` present while
`getDriveConfig "parent"` finds nothing: the parent-presence insertion
(lines 183-186) runs only inside the manifest-declared fork branch, so the
fork lineage invariant fails on the caller-supplied paths. -/
theorem configDrive_caller_forkOf_lineage_cex :
    ((configDrive envCallerFork "hyper://child"
        (.given ⟨some "parent", some "l"⟩) ⟨[], []⟩).outcome = .ok) ∧
    ((configDrive envCallerFork "hyper://child"
        (.given ⟨some "parent", some "l"⟩) ⟨[], []⟩).state.drives =
      [{ key := "child", forkOf := some ⟨some "parent", some "l"⟩ }]) ∧
    (getDriveConfig "hyper://root" "parent"
      (configDrive envCallerFork "hyper://child"
        (.given ⟨some "parent", some "l"⟩) ⟨[], []⟩).state.drives = none) :=
  ⟨rfl, rfl, rfl⟩

/-- appending the fork child after the parent-presence check leaves both
the child (with its fork metadata) and some parent entry findable. -/
theorem lineage_after_insert (ru : String) (ds : List DriveConfig)
    (key pk : String) (f : ForkOf) (hfk : f.key = some pk) :
    (∃ d ∈ ((if (ds.find? (fun d => d.key == pk)).isSome then ds
        else ds ++ [{ key := pk }]) ++ [{ key := key, forkOf := some f }]),
      d.key = key ∧ ∃ g, d.forkOf = some g ∧ g.key = some pk) ∧
    (getDriveConfig ru pk ((if (ds.find? (fun d => d.key == pk)).isSome then ds
        else ds ++ [{ key := pk }]) ++
          [{ key := key, forkOf := some f }])).isSome = true := by
  constructor
  · exact ⟨{ key := key, forkOf := some f }, by simp, rfl, f, rfl, hfk⟩
  · simp only [getDriveConfig, listDrives, if_neg Bool.false_ne_true,
      Bool.false_eq_true, if_false]
    by_cases h : (ds.find? (fun d => d.key == pk)).isSome
    · rw [if_pos h]
      rcases List.find?_isSome.mp h with ⟨x, hx, hpx⟩
      exact List.find?_isSome.mpr ⟨x, List.mem_append_left _ hx, hpx⟩
    · rw [if_neg h]
      exact List.find?_isSome.mpr
        ⟨{ key := pk }, List.mem_append_left _ (by simp), by simp⟩

/-- the effect trace of the prompt-declined early return carries no
document write. -/
theorem writeDrivesJson_not_in_abort (w : Bool) (ds : List DriveConfig) :
    Effect.writeDrivesJson ds ∉
      Effect.lockAcquire ::
        (if w then ([] : List Effect) else [.configureNetwork true true]) ++
          [Effect.promptShown, Effect.lockRelease] := by
  cases w <;> simp

/-- C1 amended: the fork lineage invariant holds on the manifest-declared
path — after a `configDrive` call on a fresh URL whose manifest declares a
(nonempty, resolvable) fork-parent URL and which completes far enough to
persist the document, the new entry carries `forkOf.key = parentKey` and
`getDriveConfig parentKey` finds an entry (the parent is inserted when
missing).  On the caller-supplied `forkOf` paths the invariant fails (see
the counterexample). -/
theorem configDrive_manifest_fork_lineage (env : Env) (url : String)
    (fa : ForkArg) (s : FSState) (ru key : String)
    (hkey : env.fromURLToKey url = some key)
    (hnew : s.drives.find? (fun d => d.key == key) = none)
    (m : Manifest) (hman : env.readManifest url = some m)
    (pu : String) (hpu : m.forkOf = some pu) (hpu' : ¬ pu = "")
    (pk : String) (hpk : env.fromURLToKey pu = some pk)
    (hW : Effect.writeDrivesJson (configDrive env url fa s).state.drives ∈
      (configDrive env url fa s).effects) :
    (∃ d ∈ (configDrive env url fa s).state.drives,
      d.key = key ∧ ∃ g, d.forkOf = some g ∧ g.key = some pk) ∧
    (getDriveConfig ru pk (configDrive env url fa s).state.drives).isSome = true := by
  cases fa with
  | undef =>
    cases hpr : env.promptResult with
    | none =>
      simp only [configDrive, hkey, hnew, hman, hpu, hpk, if_neg hpu',
        forkArgForkOf, Option.getD, truthyStr, hpr] at hW
      exact absurd hW (writeDrivesJson_not_in_abort _ _)
    | some v =>
      by_cases hv : v = ""
      · simp only [configDrive, hkey, hnew, hman, hpu, hpk, if_neg hpu',
          forkArgForkOf, Option.getD, truthyStr, hpr, hv] at hW
        exact absurd hW (writeDrivesJson_not_in_abort _ _)
      · simp only [configDrive, hkey, hnew, hman, hpu, hpk, if_neg hpu',
          forkArgForkOf, Option.getD, truthyStr, hpr, hv] at hW ⊢
        exact lineage_after_insert ru s.drives key pk ⟨some pk, some v⟩ rfl
  | cleared =>
    cases hpr : env.promptResult with
    | none =>
      simp only [configDrive, hkey, hnew, hman, hpu, hpk, if_neg hpu',
        forkArgForkOf, Option.getD, truthyStr, hpr] at hW
      exact absurd hW (writeDrivesJson_not_in_abort _ _)
    | some v =>
      by_cases hv : v = ""
      · simp only [configDrive, hkey, hnew, hman, hpu, hpk, if_neg hpu',
          forkArgForkOf, Option.getD, truthyStr, hpr, hv] at hW
        exact absurd hW (writeDrivesJson_not_in_abort _ _)
      · simp only [configDrive, hkey, hnew, hman, hpu, hpk, if_neg hpu',
          forkArgForkOf, Option.getD, truthyStr, hpr, hv] at hW ⊢
        exact lineage_after_insert ru s.drives key pk ⟨some pk, some v⟩ rfl
  | given f =>
    by_cases hl : truthyStr f.label = true
    · simp only [configDrive, hkey, hnew, hman, hpu, hpk, if_neg hpu',
        forkArgForkOf, Option.getD, hl, if_true] at hW ⊢
      exact lineage_after_insert ru s.drives key pk ⟨some pk, f.label⟩ rfl
    · cases hpr : env.promptResult with
      | none =>
        simp only [configDrive, hkey, hnew, hman, hpu, hpk, if_neg hpu',
          forkArgForkOf, Option.getD, hl, hpr] at hW
        exact absurd hW (writeDrivesJson_not_in_abort _ _)
      | some v =>
        by_cases hv : v = ""
        · simp only [configDrive, hkey, hnew, hman, hpu, hpk, if_neg hpu',
            forkArgForkOf, Option.getD, hl, hpr, hv] at hW
          exact absurd hW (writeDrivesJson_not_in_abort _ _)
        · simp only [configDrive, hkey, hnew, hman, hpu, hpk, if_neg hpu',
            forkArgForkOf, Option.getD, hl, hpr, hv] at hW ⊢
          exact lineage_after_insert ru s.drives key pk ⟨some pk, some v⟩ rfl

/-- environment for the manifest-fork scenarios: "hyper://child" resolves
to "child", "hyper://parent" to "parent"; the child's manifest declares
"hyper://parent" as fork parent; the drive is not locally writable; the
label prompt is answered with "dev". -/
def envManifestFork : Env :=
  { fromURLToKey := fun u =>
      if u = "hyper://child" then some "child"
      else if u = "hyper://parent" then some "parent" else none
    driveWritable := fun _ => false
    readManifest := fun _ => some { forkOf := some "hyper://parent" }
    promptResult := some "dev" }

/-- C1 witness: the amended lineage theorem at the concrete
manifest-declared fork scenario. -/
theorem configDrive_manifest_fork_lineage_witness :
    (∃ d ∈ (configDrive envManifestFork "hyper://child" .undef ⟨[], []⟩).state.drives,
      d.key = "child" ∧ ∃ g, d.forkOf = some g ∧ g.key = some "parent") ∧
    (getDriveConfig "hyper://root" "parent"
      (configDrive envManifestFork "hyper://child" .undef
        ⟨[], []⟩).state.drives).isSome = true :=
  configDrive_manifest_fork_lineage envManifestFork "hyper://child" .undef
    ⟨[], []⟩ "hyper://root" "child" rfl rfl { forkOf := some "hyper://parent" }
    rfl "hyper://parent" rfl (by decide) "parent" rfl (by decide)

/-- characterization of the prompt-declined early return (line 179): on
the fresh-entry manifest-fork path, when no label is available and the
prompt is declined (or submits an empty value), the call returns with the
state untouched and only lock / network / prompt effects. -/
theorem configDrive_abort_eq (env : Env) (url : String) (fa : ForkArg)
    (s : FSState) (key : String)
    (hkey : env.fromURLToKey url = some key)
    (hnew : s.drives.find? (fun d => d.key == key) = none)
    (m : Manifest) (hman : env.readManifest url = some m)
    (pu : String) (hpu : m.forkOf = some pu) (hpu' : ¬ pu = "")
    (pk : String) (hpk : env.fromURLToKey pu = some pk)
    (hlab : truthyStr ((forkArgForkOf fa).getD ⟨none, none⟩).label = false)
    (hprompt : env.promptResult = none ∨ env.promptResult = some "") :
    configDrive env url fa s =
      ⟨s, .ok, .lockAcquire ::
        (if env.driveWritable url then [] else [.configureNetwork true true]) ++
          [.promptShown, .lockRelease]⟩ := by
  cases fa with
  | undef =>
    rcases hprompt with hpr | hpr <;>
      simp [configDrive, hkey, hnew, hman, hpu, hpk, if_neg hpu',
        forkArgForkOf, truthyStr, hpr]
  | cleared =>
    rcases hprompt with hpr | hpr <;>
      simp [configDrive, hkey, hnew, hman, hpu, hpk, if_neg hpu',
        forkArgForkOf, truthyStr, hpr]
  | given f =>
    have hlab' : truthyStr f.label = false := by simpa [forkArgForkOf] using hlab
    rcases hprompt with hpr | hpr <;>
      simp [configDrive, hkey, hnew, hman, hpu, hpk, if_neg hpu',
        forkArgForkOf, hlab', hpr]

/-- C3: abort atomicity — when the fork-label prompt is declined or
returns an empty value, `configDrive` returns with no registry effect:
the persisted document and the in-memory list are exactly as before
(hence byte-identical document, unchanged length), no document write is
issued, and the registry lock is released as the final action. -/
theorem configDrive_prompt_declined_abort (env : Env) (url : String)
    (fa : ForkArg) (s : FSState) (key : String)
    (hkey : env.fromURLToKey url = some key)
    (hnew : s.drives.find? (fun d => d.key == key) = none)
    (m : Manifest) (hman : env.readManifest url = some m)
    (pu : String) (hpu : m.forkOf = some pu) (hpu' : ¬ pu = "")
    (pk : String) (hpk : env.fromURLToKey pu = some pk)
    (hlab : truthyStr ((forkArgForkOf fa).getD ⟨none, none⟩).label = false)
    (hprompt : env.promptResult = none ∨ env.promptResult = some "") :
    (configDrive env url fa s).state = s ∧
    (configDrive env url fa s).outcome = .ok ∧
    (∀ ds, Effect.writeDrivesJson ds ∉ (configDrive env url fa s).effects) ∧
    (configDrive env url fa s).effects.getLast? = some .lockRelease := by
  rw [configDrive_abort_eq env url fa s key hkey hnew m hman pu hpu hpu'
    pk hpk hlab hprompt]
  refine ⟨rfl, rfl, fun ds => ?_, ?_⟩
  · cases hwr : env.driveWritable url <;> simp [hwr]
  · cases hwr : env.driveWritable url <;> simp [hwr, List.getLast?]

/-- environment for the declined-prompt scenarios: the child's manifest
declares "hyper://parent" as fork parent, the drive is not locally
writable, and the label prompt is declined. -/
def envAbortDecline : Env :=
  { fromURLToKey := fun u =>
      if u = "hyper://child" then some "child"
      else if u = "hyper://parent" then some "parent" else none
    driveWritable := fun _ => false
    readManifest := fun _ => some { forkOf := some "hyper://parent" }
    promptResult := none }

/-- C3 witness: the abort theorem at a concrete declined prompt, from a
registry holding one unrelated entry. -/
theorem configDrive_prompt_declined_abort_witness :
    (configDrive envAbortDecline "hyper://child" .undef
      ⟨[{ key := "x" }], [{ key := "x" }]⟩).state =
        ⟨[{ key := "x" }], [{ key := "x" }]⟩ ∧
    (configDrive envAbortDecline "hyper://child" .undef
      ⟨[{ key := "x" }], [{ key := "x" }]⟩).outcome = .ok ∧
    (∀ ds, Effect.writeDrivesJson ds ∉
      (configDrive envAbortDecline "hyper://child" .undef
        ⟨[{ key := "x" }], [{ key := "x" }]⟩).effects) ∧
    (configDrive envAbortDecline "hyper://child" .undef
      ⟨[{ key := "x" }], [{ key := "x" }]⟩).effects.getLast? =
        some .lockRelease :=
  configDrive_prompt_declined_abort envAbortDecline "hyper://child" .undef
    ⟨[{ key := "x" }], [{ key := "x" }]⟩ "child" rfl rfl
    { forkOf := some "hyper://parent" } rfl "hyper://parent" rfl (by decide)
    "parent" rfl rfl (Or.inl rfl)

/-- C10: on the fresh-entry path for a non-writable drive, replication
(`announce = true`, `lookup = true`) is switched on before the fork-label
prompt; when the prompt is then declined the call aborts without any
registry change or document write, but the `configureNetwork` seeding
effect has already been issued and is not rolled back. -/
theorem configDrive_seeding_persists_after_abort (env : Env) (url : String)
    (fa : ForkArg) (s : FSState) (key : String)
    (hkey : env.fromURLToKey url = some key)
    (hnew : s.drives.find? (fun d => d.key == key) = none)
    (m : Manifest) (hman : env.readManifest url = some m)
    (pu : String) (hpu : m.forkOf = some pu) (hpu' : ¬ pu = "")
    (pk : String) (hpk : env.fromURLToKey pu = some pk)
    (hlab : truthyStr ((forkArgForkOf fa).getD ⟨none, none⟩).label = false)
    (hprompt : env.promptResult = none ∨ env.promptResult = some "")
    (hwr : env.driveWritable url = false) :
    (configDrive env url fa s).state = s ∧
    (∀ ds, Effect.writeDrivesJson ds ∉ (configDrive env url fa s).effects) ∧
    Effect.configureNetwork true true ∈ (configDrive env url fa s).effects := by
  rw [configDrive_abort_eq env url fa s key hkey hnew m hman pu hpu hpu'
    pk hpk hlab hprompt]
  exact ⟨rfl, fun ds => by simp [hwr], by simp [hwr]⟩

/-- C10 witness: the seeding side effect survives a declined prompt at a
concrete non-writable drive. -/
theorem configDrive_seeding_persists_after_abort_witness :
    (configDrive envAbortDecline "hyper://child" .undef ⟨[], []⟩).state =
      ⟨[], []⟩ ∧
    (∀ ds, Effect.writeDrivesJson ds ∉
      (configDrive envAbortDecline "hyper://child" .undef ⟨[], []⟩).effects) ∧
    Effect.configureNetwork true true ∈
      (configDrive envAbortDecline "hyper://child" .undef ⟨[], []⟩).effects :=
  configDrive_seeding_persists_after_abort envAbortDecline "hyper://child"
    .undef ⟨[], []⟩ "child" rfl rfl { forkOf := some "hyper://parent" } rfl
    "hyper://parent" rfl (by decide) "parent" rfl rfl (Or.inl rfl) rfl

/-- erasing the entry found by `findIndex` removes the key's only entry
when registry keys are unique: the subsequent lookup finds nothing. -/
theorem find?_eraseIdx_jsFindIndex (key : String) (l : List DriveConfig)
    (i : Nat) (hnd : (l.map DriveConfig.key).Nodup)
    (hidx : jsFindIndex (fun d => d.key == key) l = some i) :
    (l.eraseIdx i).find? (fun d => d.key == key) = none := by
  induction l generalizing i with
  | nil => simp [jsFindIndex] at hidx
  | cons d rest ih =>
    rw [jsFindIndex] at hidx
    simp only [List.map_cons, List.nodup_cons] at hnd
    by_cases h : d.key == key
    · rw [if_pos h] at hidx
      obtain rfl : (0 : Nat) = i := by simpa using hidx
      rw [List.eraseIdx_cons_zero, List.find?_eq_none]
      intro x hx hpx
      have hk : d.key = key := by simpa using h
      have hxk : x.key = key := by simpa using hpx
      exact hnd.1 (hk.trans hxk.symm ▸ List.mem_map_of_mem DriveConfig.key hx)
    · rw [if_neg h] at hidx
      obtain ⟨j, hj, rfl⟩ : ∃ j,
          jsFindIndex (fun d => d.key == key) rest = some j ∧ i = j + 1 := by
        cases hjf : jsFindIndex (fun d => d.key == key) rest with
        | none => rw [hjf] at hidx; simp at hidx
        | some j => rw [hjf] at hidx; exact ⟨j, rfl, by simpa using hidx.symm⟩
      rw [List.eraseIdx_cons_succ, List.find?_cons_of_neg (rest.eraseIdx j) h]
      exact ih j hnd.2 hj

/-- C7: `removeDrive(url)` contract — with the url resolving to `key`:
if no entry matches, the call is a no-op (only lock effects, no error);
if an entry matches and the drive is not locally writable, replication is
set to announce = false with lookup still true; in every present case
exactly the found entry is removed and the full document persisted, after
which (given unique keys) `getDriveConfig key` is not-found and a fresh
`configDrive(url)` (here with a readable, fork-free manifest) re-adds the
drive. -/
theorem removeDrive_contract (env : Env) (url : String) (s : FSState)
    (ru key : String) (hkey : env.fromURLToKey url = some key) :
    (jsFindIndex (fun d => d.key == key) s.drives = none →
      removeDrive env url s = ⟨s, .ok, [.lockAcquire, .lockRelease]⟩) ∧
    (∀ i, jsFindIndex (fun d => d.key == key) s.drives = some i →
      env.driveWritable url = false →
      Effect.configureNetwork false true ∈ (removeDrive env url s).effects) ∧
    (∀ i, jsFindIndex (fun d => d.key == key) s.drives = some i →
      (removeDrive env url s).state = ⟨s.drives.eraseIdx i, s.drives.eraseIdx i⟩ ∧
      (removeDrive env url s).outcome = .ok ∧
      Effect.writeDrivesJson (s.drives.eraseIdx i) ∈
        (removeDrive env url s).effects ∧
      ((s.drives.map DriveConfig.key).Nodup →
        getDriveConfig ru key (removeDrive env url s).state.drives = none)) ∧
    (∀ i, jsFindIndex (fun d => d.key == key) s.drives = some i →
      (s.drives.map DriveConfig.key).Nodup →
      ∀ m, env.readManifest url = some m → m.forkOf = none →
      (configDrive env url .undef (removeDrive env url s).state).outcome = .ok ∧
      (getDriveConfig ru key (configDrive env url .undef
        (removeDrive env url s).state).state.drives).isSome = true) := by
  refine ⟨fun habs => ?_, fun i hidx hwr => ?_, fun i hidx => ?_,
    fun i hidx hnd m hman hmf => ?_⟩
  · simp [removeDrive, hkey, habs]
  · simp [removeDrive, hkey, hidx, hwr]
  · refine ⟨by simp [removeDrive, hkey, hidx], by simp [removeDrive, hkey, hidx],
      ?_, fun hnd => ?_⟩
    · cases hwr : env.driveWritable url <;> simp [removeDrive, hkey, hidx, hwr]
    · simp only [removeDrive, hkey, hidx, getDriveConfig, listDrives,
        Bool.false_eq_true, if_false]
      exact find?_eraseIdx_jsFindIndex key s.drives i hnd hidx
  · have hstate : (removeDrive env url s).state =
        ⟨s.drives.eraseIdx i, s.drives.eraseIdx i⟩ := by
      simp [removeDrive, hkey, hidx]
    have hfind : (s.drives.eraseIdx i).find? (fun d => d.key == key) = none :=
      find?_eraseIdx_jsFindIndex key s.drives i hnd hidx
    rw [hstate]
    constructor
    · simp [configDrive, hkey, hfind, hman, hmf]
    · simp only [configDrive, hkey, hfind, hman, hmf, getDriveConfig,
        listDrives, Bool.false_eq_true, if_false]
      rw [List.find?_append, hfind]
      simp [forkArgForkOf]

/-- environment for the removeDrive witness: "hyper://a" resolves to the
key "a", the drive is not locally writable, and its manifest is readable
with no fork parent. -/
def envRemove : Env :=
  { fromURLToKey := fun u => if u = "hyper://a" then some "a" else none
    driveWritable := fun _ => false
    readManifest := fun _ => some { forkOf := none }
    promptResult := none }

/-- C7 witness: the contract at concrete registries — an absent key is a
no-op; a present key (entry index 1) has its entry removed, replication
demoted to lookup-only, the document persisted, the key then unresolvable
in the registry, and a fresh `configDrive` re-adds it. -/
theorem removeDrive_contract_witness :
    (removeDrive envRemove "hyper://a" ⟨[{ key := "x" }], [{ key := "x" }]⟩ =
      ⟨⟨[{ key := "x" }], [{ key := "x" }]⟩, .ok,
        [.lockAcquire, .lockRelease]⟩) ∧
    (Effect.configureNetwork false true ∈
      (removeDrive envRemove "hyper://a"
        ⟨[{ key := "x" }, { key := "a" }],
          [{ key := "x" }, { key := "a" }]⟩).effects) ∧
    ((removeDrive envRemove "hyper://a"
        ⟨[{ key := "x" }, { key := "a" }],
          [{ key := "x" }, { key := "a" }]⟩).state =
      ⟨[{ key := "x" }], [{ key := "x" }]⟩ ∧
      (removeDrive envRemove "hyper://a"
        ⟨[{ key := "x" }, { key := "a" }],
          [{ key := "x" }, { key := "a" }]⟩).outcome = .ok ∧
      Effect.writeDrivesJson [{ key := "x" }] ∈
        (removeDrive envRemove "hyper://a"
          ⟨[{ key := "x" }, { key := "a" }],
            [{ key := "x" }, { key := "a" }]⟩).effects ∧
      getDriveConfig "hyper://root" "a"
        (removeDrive envRemove "hyper://a"
          ⟨[{ key := "x" }, { key := "a" }],
            [{ key := "x" }, { key := "a" }]⟩).state.drives = none) ∧
    ((configDrive envRemove "hyper://a"
        .undef (removeDrive envRemove "hyper://a"
          ⟨[{ key := "x" }, { key := "a" }],
            [{ key := "x" }, { key := "a" }]⟩).state).outcome = .ok ∧
      (getDriveConfig "hyper://root" "a"
        (configDrive envRemove "hyper://a" .undef
          (removeDrive envRemove "hyper://a"
            ⟨[{ key := "x" }, { key := "a" }],
              [{ key := "x" }, { key := "a" }]⟩).state).state.drives).isSome =
        true) := by
  have hc := removeDrive_contract envRemove "hyper://a"
    ⟨[{ key := "x" }, { key := "a" }], [{ key := "x" }, { key := "a" }]⟩
    "hyper://root" "a" rfl
  have hc0 := removeDrive_contract envRemove "hyper://a"
    ⟨[{ key := "x" }], [{ key := "x" }]⟩ "hyper://root" "a" rfl
  have h3 := hc.2.2.1 1 rfl
  refine ⟨hc0.1 rfl, hc.2.1 1 rfl rfl, ⟨h3.1, h3.2.1, h3.2.2.1,
    h3.2.2.2 (by decide)⟩, ?_⟩
  exact hc.2.2.2 1 rfl (by decide) { forkOf := none } rfl rfl

/-! reference-level model for the snapshot claim.  `listDrives` returns
`drives.slice()` — a fresh array holding the same entry OBJECT references —
while `configDrive`'s existing-entry branch assigns to a field of the found
entry object in place.  Entry objects live in a heap addressed by `Nat`
references. -/

/-- heap of entry objects: reference to value. -/
abbrev Heap := List (Nat × DriveConfig)

/-- dereference. -/
def heapGet (h : Heap) (r : Nat) : Option DriveConfig :=
  (h.find? (fun x => x.1 == r)).map (·.2)

/-- in-place field assignment on the object behind a reference. -/
def heapSet (h : Heap) (r : Nat) (v : DriveConfig) : Heap :=
  h.map (fun x => if x.1 == r then (r, v) else x)

/-- registry at the reference level: heap of entry objects, allocation
counter, and the module-global `drives` array as a list of references. -/
structure RefRegistry where
  heap : Heap
  nextRef : Nat
  driveRefs : List Nat
deriving DecidableEq, Repr

/-- `drives.slice()` (line 119): a fresh array holding the same
references, fixed at call time — later pushes or splices to the live
array do not touch it. -/
def listDrivesSnapshot (s : RefRegistry) : List Nat := s.driveRefs

/-- reading a previously returned array later: each of its references
resolved against the current heap. -/
def viewSnapshot (h : Heap) (refs : List Nat) : List (Option DriveConfig) :=
  refs.map (heapGet h)

/-- `drives.push(driveCfg)` on the fresh-entry path (line 189): allocates
the new entry object and appends its reference to the live array. -/
def pushDriveRef (s : RefRegistry) (cfg : DriveConfig) : RefRegistry :=
  { heap := (s.nextRef, cfg) :: s.heap
    nextRef := s.nextRef + 1
    driveRefs := s.driveRefs ++ [s.nextRef] }

/-- `drives.splice(driveIndex, 1)` (line 223): removes the reference from
the live array; the entry object itself is untouched. -/
def spliceDriveRef (s : RefRegistry) (i : Nat) : RefRegistry :=
  { s with driveRefs := s.driveRefs.eraseIdx i }

/-- `driveCfg.forkOf = forkOf` on the entry found in the existing-entry
branch (lines 190-197, with `f = none` for the `delete` arm): an in-place
update of the shared entry object. -/
def setForkOfRef (s : RefRegistry) (key : String) (f : Option ForkOf) :
    RefRegistry :=
  match s.driveRefs.find? (fun r =>
      match heapGet s.heap r with
      | some d => d.key == key
      | none => false) with
  | none => s
  | some r =>
    match heapGet s.heap r with
    | some d => { s with heap := heapSet s.heap r { d with forkOf := f } }
    | none => s

/-- C9 counterexample: a registry holding the single entry `"a"` at
reference 0.  A snapshot returned by `listDrives` before `configDrive`'s
existing-entry `forkOf` update reads `[{key := "a"}]`, but after the
in-place update the same previously returned array reads the mutated
entry — the claimed "subsequent registry mutations do not alter" /
"writers copy rather than mutate entries" behaviour fails. -/
theorem listDrives_snapshot_cex :
    viewSnapshot (⟨[(0, { key := "a" })], 1, [0]⟩ : RefRegistry).heap
      (listDrivesSnapshot ⟨[(0, { key := "a" })], 1, [0]⟩) =
      [some { key := "a" }] ∧
    viewSnapshot (setForkOfRef ⟨[(0, { key := "a" })], 1, [0]⟩ "a"
        (some ⟨some "b", some "l"⟩)).heap
      (listDrivesSnapshot ⟨[(0, { key := "a" })], 1, [0]⟩) =
      [some { key := "a", forkOf := some ⟨some "b", some "l"⟩ }] := by
  exact ⟨rfl, rfl⟩

/-- C9 amended: `listDrives` copies at the ARRAY level only.  With
`includeSystem` it prepends the synthetic root entry (key = root URL with
the scheme stripped); the list-level writer mutations — `configDrive`'s
push of a fresh entry and `removeDrive`'s splice — leave the contents seen
through a previously returned array unchanged; but entry objects are
shared, so `configDrive`'s in-place `forkOf` update of an existing entry
IS visible through a previously returned array (see the
counterexample). -/
theorem listDrives_shallow_snapshot (ru : String) (ds : List DriveConfig)
    (s : RefRegistry) (cfg : DriveConfig) (i : Nat)
    (hwf : ∀ r ∈ s.driveRefs, r < s.nextRef) :
    (listDrives true ru ds = { key := stripScheme ru } :: ds) ∧
    (viewSnapshot (pushDriveRef s cfg).heap (listDrivesSnapshot s) =
      viewSnapshot s.heap (listDrivesSnapshot s)) ∧
    (viewSnapshot (spliceDriveRef s i).heap (listDrivesSnapshot s) =
      viewSnapshot s.heap (listDrivesSnapshot s)) ∧
    (viewSnapshot (setForkOfRef ⟨[(0, { key := "a" })], 1, [0]⟩ "a"
        (some ⟨some "b", some "l"⟩)).heap [0] ≠
      viewSnapshot ([(0, { key := "a" })] : Heap) [0]) := by
  refine ⟨by simp [listDrives], ?_, rfl, by decide⟩
  apply List.map_congr_left
  intro r hr
  have hlt : r < s.nextRef := hwf r hr
  have hne : (s.nextRef == r) = false := by
    simp only [beq_eq_false_iff_ne, ne_eq]
    omega
  simp only [pushDriveRef, heapGet]
  rw [List.find?_cons_of_neg s.heap (by simp [hne])]

/-- C9 witness: the amended snapshot theorem at a concrete registry. -/
theorem listDrives_shallow_snapshot_witness :
    (listDrives true "hyper://rootkey" [{ key := "a" }] =
      [{ key := "rootkey" }, { key := "a" }]) ∧
    (viewSnapshot (pushDriveRef ⟨[(0, { key := "a" })], 1, [0]⟩
        { key := "c" }).heap
      (listDrivesSnapshot ⟨[(0, { key := "a" })], 1, [0]⟩) =
      viewSnapshot ([(0, { key := "a" })] : Heap) [0]) ∧
    (viewSnapshot (spliceDriveRef ⟨[(0, { key := "a" })], 1, [0]⟩ 0).heap
      (listDrivesSnapshot ⟨[(0, { key := "a" })], 1, [0]⟩) =
      viewSnapshot ([(0, { key := "a" })] : Heap) [0]) ∧
    (viewSnapshot (setForkOfRef ⟨[(0, { key := "a" })], 1, [0]⟩ "a"
        (some ⟨some "b", some "l"⟩)).heap [0] ≠
      viewSnapshot ([(0, { key := "a" })] : Heap) [0]) := by
  have h := listDrives_shallow_snapshot "hyper://rootkey" [{ key := "a" }]
    ⟨[(0, { key := "a" })], 1, [0]⟩ { key := "c" } 0 (by decide)
  exact ⟨by rw [h.1]; rfl, h.2.1, h.2.2.1, h.2.2.2⟩

/-! concurrency model for two overlapping `configDrive` calls on the same
registry.  Cooperative async execution: every `await` in the body is a
suspension point where the scheduler may run the other call; the code
between two awaits runs atomically.  The shared state is the module-global
`drives` array (tracked here by entry key) and the persisted document.
Program counters: 0 awaiting the lock, 1 resolving the URL, 2 the
synchronous `drives.find` plus the drive load, 3 the manifest read, 4 the
synchronous build + push + `JSON.stringify` (the write content is fixed
here, before the `writeFile` suspension), 5 the `writeFile` commit, 6 the
`finally` release, 7 returned.  Both calls here are on fresh,
distinct-key, manifest-fork-free drives (the claim's scenario). -/

/-- Modelled from the spec: `lib/lock` (the module is not under src/) —
"a named mutual-exclusion primitive scoped to the registry's logical
name": `await lock('filesystem:drives')` returns (acquiring) only when no
caller holds the lock, otherwise the caller stays suspended; the returned
`release()` frees it.  `none` = blocked, `some h` = acquired with the new
holder. -/
def lockAcquireTry (holder : Option Bool) (p : Bool) : Option (Option Bool) :=
  match holder with
  | none => some (some p)
  | some _ => none

/-- joint state of the two calls (`false` and `true`): lock holder, shared
`drives` keys, parsed persisted document, and per-call program counter,
`drives.find` result and serialized write content. -/
structure CState where
  holder : Option Bool
  drives : List String
  doc : List String
  pc0 : Nat
  pc1 : Nat
  found0 : Bool
  found1 : Bool
  snap0 : List String
  snap1 : List String
deriving DecidableEq, Repr

/-- one scheduled step of call `p`, `k0`/`k1` being the two resolved keys.
A step at a blocked acquire, or of an already returned call, stutters. -/
def cstep (k0 k1 : String) (s : CState) (p : Bool) : CState :=
  if p then
    match s.pc1 with
    | 0 => match lockAcquireTry s.holder true with
           | none => s
           | some h => { s with holder := h, pc1 := 1 }
    | 1 => { s with pc1 := 2 }
    | 2 => { s with found1 := decide (k1 ∈ s.drives), pc1 := 3 }
    | 3 => { s with pc1 := 4 }
    | 4 => if s.found1 then { s with snap1 := s.drives, pc1 := 5 }
           else { s with drives := s.drives ++ [k1],
                         snap1 := s.drives ++ [k1], pc1 := 5 }
    | 5 => { s with doc := s.snap1, pc1 := 6 }
    | 6 => { s with holder := none, pc1 := 7 }
    | _ => s
  else
    match s.pc0 with
    | 0 => match lockAcquireTry s.holder false with
           | none => s
           | some h => { s with holder := h, pc0 := 1 }
    | 1 => { s with pc0 := 2 }
    | 2 => { s with found0 := decide (k0 ∈ s.drives), pc0 := 3 }
    | 3 => { s with pc0 := 4 }
    | 4 => if s.found0 then { s with snap0 := s.drives, pc0 := 5 }
           else { s with drives := s.drives ++ [k0],
                         snap0 := s.drives ++ [k0], pc0 := 5 }
    | 5 => { s with doc := s.snap0, pc0 := 6 }
    | 6 => { s with holder := none, pc0 := 7 }
    | _ => s

/-- initial state: lock free, empty registry and document, both calls
about to acquire. -/
def cinit : CState := ⟨none, [], [], 0, 0, false, false, [], []⟩

/-- running a schedule (an arbitrary interleaving choice at every step). -/
def crun (k0 k1 : String) (sched : List Bool) : CState :=
  sched.foldl (cstep k0 k1) cinit

/-- call `p` is inside the locked body (past the acquire, before the
release has completed). -/
def inBody0 (s : CState) : Prop := 1 ≤ s.pc0 ∧ s.pc0 ≤ 6

/-- call 1 counterpart of `inBody0`. -/
def inBody1 (s : CState) : Prop := 1 ≤ s.pc1 ∧ s.pc1 ≤ 6

/-- inductive invariant of the two-call system. -/
def cinv (k0 k1 : String) (s : CState) : Prop :=
  s.pc0 ≤ 7 ∧ s.pc1 ≤ 7 ∧
  (inBody0 s → s.holder = some false) ∧
  (inBody1 s → s.holder = some true) ∧
  (s.holder = none → ¬ inBody0 s ∧ ¬ inBody1 s) ∧
  (∀ x, x ∈ s.drives ↔ (x = k0 ∧ 5 ≤ s.pc0) ∨ (x = k1 ∧ 5 ≤ s.pc1)) ∧
  ((s.pc0 = 3 ∨ s.pc0 = 4) → s.found0 = false) ∧
  ((s.pc1 = 3 ∨ s.pc1 = 4) → s.found1 = false) ∧
  (s.pc0 = 5 → k0 ∈ s.snap0 ∧ (s.pc1 = 7 → k1 ∈ s.snap0)) ∧
  (s.pc1 = 5 → k1 ∈ s.snap1 ∧ (s.pc0 = 7 → k0 ∈ s.snap1)) ∧
  (s.pc0 = 6 → k0 ∈ s.doc ∧ (s.pc1 = 7 → k1 ∈ s.doc)) ∧
  (s.pc1 = 6 → k1 ∈ s.doc ∧ (s.pc0 = 7 → k0 ∈ s.doc)) ∧
  (s.pc0 = 7 → s.pc1 = 7 → k0 ∈ s.doc ∧ k1 ∈ s.doc)


/-- the invariant holds initially. -/
theorem cinv_init (k0 k1 : String) : cinv k0 k1 cinit := by
  simp [cinv, cinit, inBody0, inBody1]

/-- the invariant is preserved by every scheduled step. -/
theorem cinv_step (k0 k1 : String) (hne : k0 ≠ k1) (s : CState)
    (h : cinv k0 k1 s) (p : Bool) : cinv k0 k1 (cstep k0 k1 s p) := by
  obtain ⟨holder, drives, doc, pc0, pc1, f0, f1, sn0, sn1⟩ := s
  dsimp only [cinv, inBody0, inBody1] at h
  obtain ⟨h0, h1, hL0, hL1, hLn, hmem, hf0, hf1, hs0, hs1, hd0, hd1, hfin⟩ := h
  cases p with
  | false =>
    interval_cases pc0
    · cases holder with
      | some b =>
        exact ⟨h0, h1, hL0, hL1, hLn, hmem, hf0, hf1, hs0, hs1, hd0, hd1, hfin⟩
      | none =>
        have hn := hLn rfl
        show cinv k0 k1 ⟨some false, drives, doc, 1, pc1, f0, f1, sn0, sn1⟩
        dsimp only [cinv, inBody0, inBody1]
        refine ⟨by omega, h1, fun _ => rfl, ?_, ?_, ?_, ?_, hf1, ?_, ?_, ?_, ?_, ?_⟩
        · exact fun hb => absurd hb hn.2
        · exact fun hnone => nomatch hnone
        · exact fun x => by simpa using hmem x
        · exact fun hc => absurd hc (by omega)
        · exact fun hc => absurd hc (by omega)
        · exact fun hc => ⟨(hs1 hc).1, fun h7 => absurd h7 (by omega)⟩
        · exact fun hc => absurd hc (by omega)
        · exact fun hc => ⟨(hd1 hc).1, fun h7 => absurd h7 (by omega)⟩
        · exact fun hc => absurd hc (by omega)
    · have hh : holder = some false := hL0 ⟨by omega, by omega⟩
      show cinv k0 k1 ⟨holder, drives, doc, 2, pc1, f0, f1, sn0, sn1⟩
      dsimp only [cinv, inBody0, inBody1]
      refine ⟨by omega, h1, fun _ => hh, hL1, ?_, ?_, ?_, hf1, ?_, ?_, ?_, ?_, ?_⟩
      · exact fun hnone => nomatch hnone.symm.trans hh
      · exact fun x => by simpa using hmem x
      · exact fun hc => absurd hc (by omega)
      · exact fun hc => absurd hc (by omega)
      · exact fun hc => ⟨(hs1 hc).1, fun h7 => absurd h7 (by omega)⟩
      · exact fun hc => absurd hc (by omega)
      · exact fun hc => ⟨(hd1 hc).1, fun h7 => absurd h7 (by omega)⟩
      · exact fun hc => absurd hc (by omega)
    · have hh : holder = some false := hL0 ⟨by omega, by omega⟩
      have hnotin : k0 ∉ drives := by
        intro hx
        rcases (hmem k0).mp hx with ⟨_, h5⟩ | ⟨hk, _⟩
        · omega
        · exact hne hk
      show cinv k0 k1
        ⟨holder, drives, doc, 3, pc1, decide (k0 ∈ drives), f1, sn0, sn1⟩
      dsimp only [cinv, inBody0, inBody1]
      refine ⟨by omega, h1, fun _ => hh, hL1, ?_, ?_, ?_, hf1, ?_, ?_, ?_, ?_, ?_⟩
      · exact fun hnone => nomatch hnone.symm.trans hh
      · exact fun x => by simpa using hmem x
      · exact fun _ => decide_eq_false hnotin
      · exact fun hc => absurd hc (by omega)
      · exact fun hc => ⟨(hs1 hc).1, fun h7 => absurd h7 (by omega)⟩
      · exact fun hc => absurd hc (by omega)
      · exact fun hc => ⟨(hd1 hc).1, fun h7 => absurd h7 (by omega)⟩
      · exact fun hc => absurd hc (by omega)
    · have hh : holder = some false := hL0 ⟨by omega, by omega⟩
      show cinv k0 k1 ⟨holder, drives, doc, 4, pc1, f0, f1, sn0, sn1⟩
      dsimp only [cinv, inBody0, inBody1]
      refine ⟨by omega, h1, fun _ => hh, hL1, ?_, ?_, ?_, hf1, ?_, ?_, ?_, ?_, ?_⟩
      · exact fun hnone => nomatch hnone.symm.trans hh
      · exact fun x => by simpa using hmem x
      · exact fun _ => hf0 (Or.inl rfl)
      · exact fun hc => absurd hc (by omega)
      · exact fun hc => ⟨(hs1 hc).1, fun h7 => absurd h7 (by omega)⟩
      · exact fun hc => absurd hc (by omega)
      · exact fun hc => ⟨(hd1 hc).1, fun h7 => absurd h7 (by omega)⟩
      · exact fun hc => absurd hc (by omega)
    · have hfz : f0 = false := hf0 (Or.inr rfl)
      subst hfz
      have hh : holder = some false := hL0 ⟨by omega, by omega⟩
      show cinv k0 k1
        ⟨holder, drives ++ [k0], doc, 5, pc1, false, f1, drives ++ [k0], sn1⟩
      dsimp only [cinv, inBody0, inBody1]
      refine ⟨by omega, h1, fun _ => hh, hL1, ?_, ?_, fun _ => rfl, hf1,
        ?_, ?_, ?_, ?_, ?_⟩
      · exact fun hnone => nomatch hnone.symm.trans hh
      · intro x
        constructor
        · intro hx
          rcases List.mem_append.mp hx with hx | hx
          · rcases (hmem x).mp hx with ⟨_, h5⟩ | ⟨hk, h5⟩
            · omega
            · exact Or.inr ⟨hk, h5⟩
          · exact Or.inl ⟨List.mem_singleton.mp hx, by omega⟩
        · rintro (⟨hk, _⟩ | ⟨hk, h5⟩)
          · exact List.mem_append_right _ (by simp [hk])
          · exact List.mem_append_left _ ((hmem x).mpr (Or.inr ⟨hk, h5⟩))
      · exact fun _ => ⟨List.mem_append_right _ (by simp),
          fun h7 => List.mem_append_left _ ((hmem k1).mpr (Or.inr ⟨rfl, by omega⟩))⟩
      · exact fun hc => ⟨(hs1 hc).1, fun h7 => absurd h7 (by omega)⟩
      · exact fun hc => absurd hc (by omega)
      · exact fun hc => ⟨(hd1 hc).1, fun h7 => absurd h7 (by omega)⟩
      · exact fun hc => absurd hc (by omega)
    · have hh : holder = some false := hL0 ⟨by omega, by omega⟩
      have hsn := hs0 rfl
      show cinv k0 k1 ⟨holder, drives, sn0, 6, pc1, f0, f1, sn0, sn1⟩
      dsimp only [cinv, inBody0, inBody1]
      refine ⟨by omega, h1, fun _ => hh, hL1, ?_, ?_, ?_, hf1, ?_, ?_,
        fun _ => hsn, ?_, ?_⟩
      · exact fun hnone => nomatch hnone.symm.trans hh
      · exact fun x => by simpa using hmem x
      · exact fun hc => absurd hc (by omega)
      · exact fun hc => absurd hc (by omega)
      · exact fun hc => nomatch hh.symm.trans (hL1 ⟨by omega, by omega⟩)
      · exact fun hc => nomatch hh.symm.trans (hL1 ⟨by omega, by omega⟩)
      · exact fun hc => absurd hc (by omega)
    · have hh : holder = some false := hL0 ⟨by omega, by omega⟩
      have hdc := hd0 rfl
      show cinv k0 k1 ⟨none, drives, doc, 7, pc1, f0, f1, sn0, sn1⟩
      dsimp only [cinv, inBody0, inBody1]
      refine ⟨by omega, h1, ?_, ?_, ?_, ?_, ?_, hf1, ?_, ?_, ?_, ?_, ?_⟩
      · exact fun hb => absurd hb (by omega)
      · exact fun hb => nomatch hh.symm.trans (hL1 hb)
      · exact fun _ => ⟨fun hb => absurd hb (by omega),
          fun hb => nomatch hh.symm.trans (hL1 hb)⟩
      · exact fun x => by simpa using hmem x
      · exact fun hc => absurd hc (by omega)
      · exact fun hc => absurd hc (by omega)
      · exact fun hc => nomatch hh.symm.trans (hL1 ⟨by omega, by omega⟩)
      · exact fun hc => absurd hc (by omega)
      · exact fun hc => nomatch hh.symm.trans (hL1 ⟨by omega, by omega⟩)
      · exact fun _ h7 => ⟨hdc.1, hdc.2 h7⟩
    · exact ⟨h0, h1, hL0, hL1, hLn, hmem, hf0, hf1, hs0, hs1, hd0, hd1, hfin⟩
  | true =>
    interval_cases pc1
    · cases holder with
      | some b =>
        exact ⟨h0, h1, hL0, hL1, hLn, hmem, hf0, hf1, hs0, hs1, hd0, hd1, hfin⟩
      | none =>
        have hn := hLn rfl
        show cinv k0 k1 ⟨some true, drives, doc, pc0, 1, f0, f1, sn0, sn1⟩
        dsimp only [cinv, inBody0, inBody1]
        refine ⟨h0, by omega, ?_, fun _ => rfl, ?_, ?_, hf0, ?_, ?_, ?_, ?_, ?_, ?_⟩
        · exact fun hb => absurd hb hn.1
        · exact fun hnone => nomatch hnone
        · exact fun x => by simpa using hmem x
        · exact fun hc => absurd hc (by omega)
        · exact fun hc => ⟨(hs0 hc).1, fun h7 => absurd h7 (by omega)⟩
        · exact fun hc => absurd hc (by omega)
        · exact fun hc => ⟨(hd0 hc).1, fun h7 => absurd h7 (by omega)⟩
        · exact fun hc => absurd hc (by omega)
        · exact fun h7 hc => absurd hc (by omega)
    · have hh : holder = some true := hL1 ⟨by omega, by omega⟩
      show cinv k0 k1 ⟨holder, drives, doc, pc0, 2, f0, f1, sn0, sn1⟩
      dsimp only [cinv, inBody0, inBody1]
      refine ⟨h0, by omega, hL0, fun _ => hh, ?_, ?_, hf0, ?_, ?_, ?_, ?_, ?_, ?_⟩
      · exact fun hnone => nomatch hnone.symm.trans hh
      · exact fun x => by simpa using hmem x
      · exact fun hc => absurd hc (by omega)
      · exact fun hc => ⟨(hs0 hc).1, fun h7 => absurd h7 (by omega)⟩
      · exact fun hc => absurd hc (by omega)
      · exact fun hc => ⟨(hd0 hc).1, fun h7 => absurd h7 (by omega)⟩
      · exact fun hc => absurd hc (by omega)
      · exact fun h7 hc => absurd hc (by omega)
    · have hh : holder = some true := hL1 ⟨by omega, by omega⟩
      have hnotin : k1 ∉ drives := by
        intro hx
        rcases (hmem k1).mp hx with ⟨hk, _⟩ | ⟨_, h5⟩
        · exact hne hk.symm
        · omega
      show cinv k0 k1
        ⟨holder, drives, doc, pc0, 3, f0, decide (k1 ∈ drives), sn0, sn1⟩
      dsimp only [cinv, inBody0, inBody1]
      refine ⟨h0, by omega, hL0, fun _ => hh, ?_, ?_, hf0, ?_, ?_, ?_, ?_, ?_, ?_⟩
      · exact fun hnone => nomatch hnone.symm.trans hh
      · exact fun x => by simpa using hmem x
      · exact fun _ => decide_eq_false hnotin
      · exact fun hc => ⟨(hs0 hc).1, fun h7 => absurd h7 (by omega)⟩
      · exact fun hc => absurd hc (by omega)
      · exact fun hc => ⟨(hd0 hc).1, fun h7 => absurd h7 (by omega)⟩
      · exact fun hc => absurd hc (by omega)
      · exact fun h7 hc => absurd hc (by omega)
    · have hh : holder = some true := hL1 ⟨by omega, by omega⟩
      show cinv k0 k1 ⟨holder, drives, doc, pc0, 4, f0, f1, sn0, sn1⟩
      dsimp only [cinv, inBody0, inBody1]
      refine ⟨h0, by omega, hL0, fun _ => hh, ?_, ?_, hf0, ?_, ?_, ?_, ?_, ?_, ?_⟩
      · exact fun hnone => nomatch hnone.symm.trans hh
      · exact fun x => by simpa using hmem x
      · exact fun _ => hf1 (Or.inl rfl)
      · exact fun hc => ⟨(hs0 hc).1, fun h7 => absurd h7 (by omega)⟩
      · exact fun hc => absurd hc (by omega)
      · exact fun hc => ⟨(hd0 hc).1, fun h7 => absurd h7 (by omega)⟩
      · exact fun hc => absurd hc (by omega)
      · exact fun h7 hc => absurd hc (by omega)
    · have hfz : f1 = false := hf1 (Or.inr rfl)
      subst hfz
      have hh : holder = some true := hL1 ⟨by omega, by omega⟩
      show cinv k0 k1
        ⟨holder, drives ++ [k1], doc, pc0, 5, f0, false, sn0, drives ++ [k1]⟩
      dsimp only [cinv, inBody0, inBody1]
      refine ⟨h0, by omega, hL0, fun _ => hh, ?_, ?_, hf0, fun _ => rfl,
        ?_, ?_, ?_, ?_, ?_⟩
      · exact fun hnone => nomatch hnone.symm.trans hh
      · intro x
        constructor
        · intro hx
          rcases List.mem_append.mp hx with hx | hx
          · rcases (hmem x).mp hx with ⟨hk, h5⟩ | ⟨_, h5⟩
            · exact Or.inl ⟨hk, h5⟩
            · omega
          · exact Or.inr ⟨List.mem_singleton.mp hx, by omega⟩
        · rintro (⟨hk, h5⟩ | ⟨hk, _⟩)
          · exact List.mem_append_left _ ((hmem x).mpr (Or.inl ⟨hk, h5⟩))
          · exact List.mem_append_right _ (by simp [hk])
      · exact fun hc => ⟨(hs0 hc).1, fun h7 => absurd h7 (by omega)⟩
      · exact fun _ => ⟨List.mem_append_right _ (by simp),
          fun h7 => List.mem_append_left _ ((hmem k0).mpr (Or.inl ⟨rfl, by omega⟩))⟩
      · exact fun hc => ⟨(hd0 hc).1, fun h7 => absurd h7 (by omega)⟩
      · exact fun hc => absurd hc (by omega)
      · exact fun h7 hc => absurd hc (by omega)
    · have hh : holder = some true := hL1 ⟨by omega, by omega⟩
      have hsn := hs1 rfl
      show cinv k0 k1 ⟨holder, drives, sn1, pc0, 6, f0, f1, sn0, sn1⟩
      dsimp only [cinv, inBody0, inBody1]
      refine ⟨h0, by omega, hL0, fun _ => hh, ?_, ?_, hf0, ?_, ?_, ?_, ?_,
        fun _ => hsn, ?_⟩
      · exact fun hnone => nomatch hnone.symm.trans hh
      · exact fun x => by simpa using hmem x
      · exact fun hc => absurd hc (by omega)
      · exact fun hc => nomatch hh.symm.trans (hL0 ⟨by omega, by omega⟩)
      · exact fun hc => absurd hc (by omega)
      · exact fun hc => nomatch hh.symm.trans (hL0 ⟨by omega, by omega⟩)
      · exact fun h7 hc => absurd hc (by omega)
    · have hh : holder = some true := hL1 ⟨by omega, by omega⟩
      have hdc := hd1 rfl
      show cinv k0 k1 ⟨none, drives, doc, pc0, 7, f0, f1, sn0, sn1⟩
      dsimp only [cinv, inBody0, inBody1]
      refine ⟨h0, by omega, ?_, ?_, ?_, ?_, hf0, ?_, ?_, ?_, ?_, ?_, ?_⟩
      · exact fun hb => nomatch hh.symm.trans (hL0 hb)
      · exact fun hb => absurd hb (by omega)
      · exact fun _ => ⟨(fun hb => nomatch hh.symm.trans (hL0 hb)),
          fun hb => absurd hb (by omega)⟩
      · exact fun x => by simpa using hmem x
      · exact fun hc => absurd hc (by omega)
      · exact fun hc => nomatch hh.symm.trans (hL0 ⟨by omega, by omega⟩)
      · exact fun hc => absurd hc (by omega)
      · exact fun hc => nomatch hh.symm.trans (hL0 ⟨by omega, by omega⟩)
      · exact fun hc => ⟨(hd1 rfl).1, fun h7 => (hd1 rfl).2 h7⟩
      · exact fun h7 hc => ⟨(hdc.2 h7 : _), hdc.1⟩
    · exact ⟨h0, h1, hL0, hL1, hLn, hmem, hf0, hf1, hs0, hs1, hd0, hd1, hfin⟩

/-- the invariant holds along any fold of steps. -/
theorem cinv_foldl (k0 k1 : String) (hne : k0 ≠ k1) :
    ∀ (sched : List Bool) (s : CState), cinv k0 k1 s →
      cinv k0 k1 (sched.foldl (cstep k0 k1) s)
  | [], _, h => h
  | p :: rest, s, h => cinv_foldl k0 k1 hne rest _ (cinv_step k0 k1 hne s h p)

/-- the invariant holds after any schedule from the initial state. -/
theorem cinv_run (k0 k1 : String) (hne : k0 ≠ k1) (sched : List Bool) :
    cinv k0 k1 (crun k0 k1 sched) :=
  cinv_foldl k0 k1 hne sched cinit (cinv_init k0 k1)

/-- C4: mutual exclusion and no lost update for two overlapping
`configDrive` calls on distinct fresh URLs: under every schedule the two
locked bodies are never simultaneously active (their read-modify-write
sequences cannot interleave), and whenever both calls have completed the
persisted document contains both calls' entries. -/
theorem configDrive_mutex_no_lost_update (k0 k1 : String) (hne : k0 ≠ k1)
    (sched : List Bool) :
    (¬ (inBody0 (crun k0 k1 sched) ∧ inBody1 (crun k0 k1 sched))) ∧
    ((crun k0 k1 sched).pc0 = 7 → (crun k0 k1 sched).pc1 = 7 →
      k0 ∈ (crun k0 k1 sched).doc ∧ k1 ∈ (crun k0 k1 sched).doc) := by
  obtain ⟨h0, h1, hL0, hL1, hLn, hmem, hf0, hf1, hs0, hs1, hd0, hd1, hfin⟩ :=
    cinv_run k0 k1 hne sched
  refine ⟨?_, hfin⟩
  rintro ⟨hb0, hb1⟩
  exact nomatch (hL0 hb0).symm.trans (hL1 hb1)

/-- C4 witness: a concrete interleaving attempt (the second call tries to
run while the first holds the lock and stutters until release) in which
both calls complete: the final document holds both keys, and the bodies
were not simultaneously active at the end. -/
theorem configDrive_mutex_no_lost_update_witness :
    (¬ (inBody0 (crun "a" "b" [false, true, false, true, false, false, false,
        false, false, true, true, true, true, true, true, true]) ∧
      inBody1 (crun "a" "b" [false, true, false, true, false, false, false,
        false, false, true, true, true, true, true, true, true]))) ∧
    ("a" ∈ (crun "a" "b" [false, true, false, true, false, false, false,
        false, false, true, true, true, true, true, true, true]).doc ∧
      "b" ∈ (crun "a" "b" [false, true, false, true, false, false, false,
        false, false, true, true, true, true, true, true, true]).doc) :=
  ⟨(configDrive_mutex_no_lost_update "a" "b" (by decide)
      [false, true, false, true, false, false, false, false, false, true,
        true, true, true, true, true, true]).1,
    (configDrive_mutex_no_lost_update "a" "b" (by decide)
      [false, true, false, true, false, false, false, false, false, true,
        true, true, true, true, true, true]).2 (by decide) (by decide)⟩

end Beaker
